import Mathlib

/-!
Shallow embedding of the cache-warmer program (Go, single main file with the
adaptive rate limiter) for verification of its natural-language specification.

Modelling conventions:
* times are integers counting seconds (Go formats/parses RFC3339 at second
  granularity when writing with time.RFC3339);
* a timestamp stored in the database is either a well-formed RFC3339 string
  (carrying its parsed value) or an unparseable string;
* SQL rows are association lists keyed by the primary-key column;
* SQL NULL for the last_error column is Option.none, a stored Go string
  (possibly empty) is Option.some.
-/

/-- A TEXT column value holding a timestamp: either a well-formed RFC3339
string (identified with the instant it denotes, in seconds) or a string that
fails to parse. -/
inductive TimeStr where
  | valid (t : Int)
  | invalid (s : String)
deriving DecidableEq, Repr

/-- time.Parse(time.RFC3339, v): succeeds exactly on well-formed values. -/
def parseRFC3339 : TimeStr → Option Int
  | TimeStr.valid t => some t
  | TimeStr.invalid _ => none

/-- One row of the warmed_url table (url is the key of the association list). -/
structure WarmRecord where
  last_warmed_utc : TimeStr
  last_status : Int
  last_error : Option String
  warmed_count : Int
deriving DecidableEq, Repr

/-- The embedded database state: warmed_url rows keyed by url, plus the two
meta keys the program uses. -/
structure WarmDB where
  warmed : List (String × WarmRecord)
  meta_last_flush : Option TimeStr
  meta_last_flush_reason : Option String
deriving DecidableEq, Repr

def emptyWarmDB : WarmDB := ⟨[], none, none⟩

/-- First-match lookup in an association list (SQL SELECT ... WHERE key = ?). -/
def lookupKey {α : Type} : List (String × α) → String → Option α
  | [], _ => none
  | (k, v) :: rest, key => if k = key then some v else lookupKey rest key

/-- Replace the value at the first matching key (SQL UPDATE on a primary key). -/
def updateKey {α : Type} : List (String × α) → String → α → List (String × α)
  | [], _, _ => []
  | (k, v) :: rest, key, nv =>
    if k = key then (k, nv) :: rest else (k, v) :: updateKey rest key nv

/-- WarmDB.GetLastFlush: reads meta key last_flush_utc; no row gives none, and
a value that fails to parse as RFC3339 also gives none with no error. -/
def GetLastFlush (db : WarmDB) : Option Int :=
  match db.meta_last_flush with
  | none => none
  | some v =>
    match parseRFC3339 v with
    | none => none
    | some t => some t

/-- WarmDB.MarkFlush: upserts last_flush_utc := now (formatted RFC3339, hence
a valid timestamp) and, when reason is nonempty, last_flush_reason := reason. -/
def MarkFlush (db : WarmDB) (now : Int) (reason : String) : WarmDB :=
  let db1 : WarmDB := { db with meta_last_flush := some (TimeStr.valid now) }
  if reason = "" then db1
  else { db1 with meta_last_flush_reason := some reason }

/-- WarmDB.ShouldWarm: true when no row exists for the url; true when the
stored last_warmed_utc fails to parse; true when a last flush exists and the
last warm is strictly before it; otherwise now - last_warmed >= rewarmAfter. -/
def ShouldWarm (db : WarmDB) (url : String) (rewarmAfter : Int) (now : Int) : Bool :=
  let lastFlush := GetLastFlush db
  match lookupKey db.warmed url with
  | none => true
  | some r =>
    match parseRFC3339 r.last_warmed_utc with
    | none => true
    | some lastWarmed =>
      if (match lastFlush with
          | some f => decide (lastWarmed < f)
          | none => false) then true
      else decide (now - lastWarmed ≥ rewarmAfter)

/-- WarmDB.MarkWarmed: upsert of the warmed_url row. On insert the row gets
warmed_count 1; on update warmed_count is incremented. The error message is a
Go string, so the stored last_error is never SQL NULL (it is some errorMsg,
possibly some ""). -/
def MarkWarmed (db : WarmDB) (url : String) (status : Int) (errorMsg : String)
    (now : Int) : WarmDB :=
  match lookupKey db.warmed url with
  | none =>
    let nr : WarmRecord := ⟨TimeStr.valid now, status, some errorMsg, 1⟩
    { db with warmed := db.warmed ++ [(url, nr)] }
  | some r =>
    let nr : WarmRecord := ⟨TimeStr.valid now, status, some errorMsg, r.warmed_count + 1⟩
    { db with warmed := updateKey db.warmed url nr }

/-- The Stats result struct. -/
structure Stats where
  warmedTotal : Nat
  okTotal : Nat
  errTotal : Nat
  lastFlushUTC : Option Int
deriving DecidableEq, Repr

/-- Row predicate of the ok_total query:
last_error IS NULL AND last_status BETWEEN 200 AND 399. -/
def statsOKRow (r : WarmRecord) : Bool :=
  decide (r.last_error = none) && decide (200 ≤ r.last_status) &&
    decide (r.last_status ≤ 399)

/-- Row predicate of the err_total query:
last_error IS NOT NULL OR last_status >= 400 OR last_status = 0. -/
def statsErrRow (r : WarmRecord) : Bool :=
  decide (r.last_error ≠ none) || decide (r.last_status ≥ 400) ||
    decide (r.last_status = 0)

/-- WarmDB.Stats: the three COUNT(*) queries plus the last flush timestamp. -/
def dbStats (db : WarmDB) : Stats :=
  ⟨db.warmed.length,
   (db.warmed.filter (fun p => statsOKRow p.2)).length,
   (db.warmed.filter (fun p => statsErrRow p.2)).length,
   GetLastFlush db⟩

/-!
Rate limiter (adaptive concurrency on 429). Concurrency counts are Nat
(the config validator enforces concurrency >= 1, and Go integer division on
non-negative values agrees with Nat division); instants and durations are
Int seconds.
-/

/-- The rateLimiter struct (mutex, condition variable and activeWorkers are
concurrency plumbing and carry no data the claims mention). -/
structure RateLimiter where
  currentConcurrency : Nat
  minConcurrency : Nat
  maxConcurrency : Nat
  cooldownUntil : Int
  consecutiveOK : Nat
  recoverAfter : Nat
  cooldownSeconds : Int
deriving DecidableEq, Repr

/-- newRateLimiter: currentConcurrency and maxConcurrency start at the
configured concurrency, minConcurrency is the constant 1, cooldownUntil is
the zero time. -/
def newRateLimiter (concurrency : Nat) (cooldownSeconds : Int)
    (recoverAfter : Nat) : RateLimiter :=
  ⟨concurrency, 1, concurrency, 0, 0, recoverAfter, cooldownSeconds⟩

/-- rateLimiter.on429: halve currentConcurrency flooring at minConcurrency,
reset consecutiveOK, and set cooldownUntil to now plus the larger of the
Retry-After hint and cooldownSeconds. -/
def on429 (rl : RateLimiter) (retryAfter : Int) (now : Int) : RateLimiter :=
  let newConcurrency0 := rl.currentConcurrency / 2
  let newConcurrency :=
    if newConcurrency0 < rl.minConcurrency then rl.minConcurrency
    else newConcurrency0
  let cooldown :=
    if retryAfter < rl.cooldownSeconds then rl.cooldownSeconds else retryAfter
  { rl with
      currentConcurrency := newConcurrency
      consecutiveOK := 0
      cooldownUntil := now + cooldown }

/-- rateLimiter.onSuccess: increment consecutiveOK; once it reaches
recoverAfter while currentConcurrency is below maxConcurrency, raise
currentConcurrency by one and reset consecutiveOK. -/
def onSuccess (rl : RateLimiter) : RateLimiter :=
  let rl1 : RateLimiter := { rl with consecutiveOK := rl.consecutiveOK + 1 }
  if rl1.recoverAfter ≤ rl1.consecutiveOK ∧
      rl1.currentConcurrency < rl1.maxConcurrency then
    { rl1 with
        currentConcurrency := rl1.currentConcurrency + 1
        consecutiveOK := 0 }
  else rl1

/-- One event applied to the limiter by the worker pool. -/
inductive RLEvent where
  | limit (retryAfter now : Int)
  | ok
deriving DecidableEq, Repr

def rlStep (rl : RateLimiter) : RLEvent → RateLimiter
  | RLEvent.limit retryAfter now => on429 rl retryAfter now
  | RLEvent.ok => onSuccess rl

def rlRun (rl : RateLimiter) (events : List RLEvent) : RateLimiter :=
  events.foldl rlStep rl

/-- n consecutive on429 calls (sustained 429 responses). -/
def iter429 (retryAfter now : Int) : Nat → RateLimiter → RateLimiter
  | 0, rl => rl
  | Nat.succ n, rl => iter429 retryAfter now n (on429 rl retryAfter now)

/-!
Retry-After header parsing. strconv.Atoi is embedded directly; the RFC 1123
date parser (time.Parse(time.RFC1123, ...)) is a Go library routine taken as
an abstract parameter returning the denoted instant in seconds, or none when
the string is not a well-formed HTTP-date. A real HTTP-date parser rejects
the empty string and decimal numerals.
-/

/-- strings.TrimSpace: drop leading and trailing whitespace. Defined on the
character list so that it evaluates by kernel reduction. -/
def trimSpace (s : String) : String :=
  String.mk
    (((s.data.dropWhile Char.isWhitespace).reverse.dropWhile
        Char.isWhitespace).reverse)

/-- Digit run to a number: all characters must be decimal digits and at least
one must be present (strconv.Atoi rejects empty digit runs). -/
def digitsToNat (cs : List Char) : Option Nat :=
  if !cs.isEmpty && cs.all Char.isDigit then
    some (cs.foldl (fun a c => a * 10 + (c.toNat - 48)) 0)
  else none

/-- strconv.Atoi: optional single leading sign, then a nonempty digit run
making up the whole string. (The int64 range check is not modelled; header
values near 2^63 do not occur.) -/
def goAtoi (s : String) : Option Int :=
  match s.data with
  | [] => none
  | '+' :: rest => (digitsToNat rest).map (fun n => (n : Int))
  | '-' :: rest => (digitsToNat rest).map (fun n => -(n : Int))
  | cs => (digitsToNat cs).map (fun n => (n : Int))

/-- The HTTP-date branch of parseRetryAfter: d := time.Until(t); return d when
d > 0, else fall back to the default. -/
def retryAfterDate (rfc1123 : String → Option Int) (now : Int) (h : String)
    (defaultSec : Int) : Int :=
  match rfc1123 h with
  | some t => if 0 < t - now then t - now else defaultSec
  | none => defaultSec

/-- parseRetryAfter: trim the header; empty gives the default; a parseable
non-negative integer gives that many seconds; otherwise try RFC 1123 and use
the remaining duration when positive; otherwise the default. The result is a
duration in seconds. -/
def parseRetryAfter (rfc1123 : String → Option Int) (now : Int) (hdr : String)
    (defaultSec : Int) : Int :=
  let h := trimSpace hdr
  if h = "" then defaultSec
  else
    match goAtoi h with
    | some sec =>
      if 0 ≤ sec then sec else retryAfterDate rfc1123 now h defaultSec
    | none => retryAfterDate rfc1123 now h defaultSec

/-!
Sitemap XML parsing. xml.Unmarshal is a Go library call; its outcome on the
input bytes is modelled as the pair of optional decoded structures (none when
unmarshalling fails, e.g. on malformed XML or a different root element). The
loc fields hold the element character data verbatim, whitespace included.
-/

/-- Decoded sitemapindex root: the loc values of its sitemap children. -/
structure GoSitemapIndexRoot where
  sitemaps : List String
deriving DecidableEq, Repr

/-- Decoded urlset root: the loc values of its url children and of any
sitemap children. -/
structure GoUrlset where
  urls : List String
  sitemaps : List String
deriving DecidableEq, Repr

structure SitemapParseResult where
  children : List String
  pages : List String
  err : Option String
deriving DecidableEq, Repr

/-- The append loop shared by the three ranges in parseSitemapXML: for each
loc value s, if s is nonempty (before trimming), append strings.TrimSpace(s). -/
def appendLocs (acc : List String) (locs : List String) : List String :=
  locs.foldl (fun a s => if s ≠ "" then a ++ [trimSpace s] else a) acc

/-- parseSitemapXML: try the sitemapindex shape (used only when it decodes
with at least one sitemap child), then the urlset shape; the error returned
is always nil. -/
def parseSitemapXML (idx : Option GoSitemapIndexRoot)
    (urlset : Option GoUrlset) : SitemapParseResult :=
  let childSitemaps : List String :=
    match idx with
    | some i => if 0 < i.sitemaps.length then appendLocs [] i.sitemaps else []
    | none => []
  match urlset with
  | some u => ⟨appendLocs childSitemaps u.sitemaps, appendLocs [] u.urls, none⟩
  | none => ⟨childSitemaps, [], none⟩

/-!
Sitemap collector. The network is a finite table from sitemap URL to the
outcome of fetching-and-parsing it: failure (transport error, HTTP error or
gzip error after retries) or the child sitemap list and page URL list from
parseSitemapXML. A URL absent from the table fails to fetch. The collector
state is the seenSitemaps visited set plus a log of the fetches performed, in
order. General recursion is embedded with a fuel parameter; fuel exhaustion
is Option.none, and an adequacy theorem shows enough fuel always exists.
-/

inductive FetchResult where
  | failure
  | success (children : List String) (urls : List String)
deriving DecidableEq, Repr

structure CollectState where
  visited : List String
  fetchLog : List String
deriving DecidableEq, Repr

/-- The loop over child sitemaps inside collectURLsFromSitemap, with the
recursive call abstracted as the step function: each child is collected in
order against the threaded state; a child whose collection aborts (fuel
exhaustion, an embedding artifact) aborts the loop. -/
def collectManyF
    (step : String → CollectState → Option (List String × CollectState)) :
    List String → CollectState → Option (List String × CollectState)
  | [], st => some ([], st)
  | c :: cs', st =>
    match step c st with
    | none => none
    | some (us, st') =>
      match collectManyF step cs' st' with
      | none => none
      | some (rest, st2) => some (us ++ rest, st2)

/-- Insert the seed into the visited set and log its fetch (the fetch call
always directly follows the insertion in the source). -/
def markVisited (seed : String) (st : CollectState) : CollectState :=
  ⟨seed :: st.visited, st.fetchLog ++ [seed]⟩

/-- CacheWarmer.collectURLsFromSitemap: return empty at an already-visited
seed; otherwise mark the seed visited, fetch it (logged), and on success
append the recursively collected child results to its page URLs. A child
error is logged and skipped in Go, so it contributes nothing. -/
def collectOne (world : List (String × FetchResult)) :
    Nat → String → CollectState → Option (List String × CollectState)
  | 0, _, _ => none
  | Nat.succ fuel, seed, st =>
    if seed ∈ st.visited then some ([], st)
    else
      match lookupKey world seed with
      | none => some ([], markVisited seed st)
      | some FetchResult.failure => some ([], markVisited seed st)
      | some (FetchResult.success children urls) =>
        match collectManyF (fun c stc => collectOne world fuel c stc)
            children (markVisited seed st) with
        | none => none
        | some (rest, st2) => some (urls ++ rest, st2)

/-- The keys of the fetch table. -/
def worldKeys (world : List (String × FetchResult)) : List String :=
  world.map (fun p => p.1)

/-- Fuel needed below: the number of table keys not yet visited. -/
def unvisitedCount (world : List (String × FetchResult))
    (st : CollectState) : Nat :=
  (worldKeys world).filter (fun k => decide (¬ k ∈ st.visited)) |>.length

/-- A well-formed collector state: no sitemap was fetched twice, and every
fetched sitemap is in the visited set. -/
def GoodState (st : CollectState) : Prop :=
  st.fetchLog.Nodup ∧ ∀ u ∈ st.fetchLog, u ∈ st.visited

/-!
Helper lemmas about the association-list operations and MarkFlush.
-/

theorem lookupKey_mem {α : Type} {l : List (String × α)} {k : String} {v : α}
    (h : lookupKey l k = some v) : (k, v) ∈ l := by
  induction l with
  | nil => simp [lookupKey] at h
  | cons p rest ih =>
    obtain ⟨pk, pv⟩ := p
    by_cases hk : pk = k
    · subst hk
      simp [lookupKey] at h
      subst h
      exact List.mem_cons_self _ _
    · simp [lookupKey, hk] at h
      exact List.mem_cons_of_mem _ (ih h)

theorem mem_updateKey {α : Type} {l : List (String × α)} {k : String} {nv : α}
    {p : String × α} (h : p ∈ updateKey l k nv) : p ∈ l ∨ p = (k, nv) := by
  induction l with
  | nil => simp [updateKey] at h
  | cons q rest ih =>
    obtain ⟨qk, qv⟩ := q
    by_cases hk : qk = k
    · subst hk
      simp [updateKey] at h
      rcases h with h | h
      · right; simp [h]
      · left; exact List.mem_cons_of_mem _ h
    · simp [updateKey, hk] at h
      rcases h with h | h
      · left; simp [h]
      · rcases ih h with h1 | h1
        · left; exact List.mem_cons_of_mem _ h1
        · right; exact h1

theorem lookupKey_updateKey_self {α : Type} {l : List (String × α)}
    {k : String} {v nv : α} (h : lookupKey l k = some v) :
    lookupKey (updateKey l k nv) k = some nv := by
  induction l with
  | nil => simp [lookupKey] at h
  | cons p rest ih =>
    obtain ⟨pk, pv⟩ := p
    by_cases hk : pk = k
    · subst hk
      simp [updateKey, lookupKey]
    · simp [lookupKey, hk] at h
      simp [updateKey, lookupKey, hk]
      exact ih h

theorem lookupKey_append_self {α : Type} {l : List (String × α)} {k : String}
    (v : α) (h : lookupKey l k = none) :
    lookupKey (l ++ [(k, v)]) k = some v := by
  induction l with
  | nil => simp [lookupKey]
  | cons p rest ih =>
    obtain ⟨pk, pv⟩ := p
    by_cases hk : pk = k
    · subst hk
      simp [lookupKey] at h
    · simp [lookupKey, hk] at h ⊢
      exact ih h

theorem MarkFlush_warmed (db : WarmDB) (now : Int) (reason : String) :
    (MarkFlush db now reason).warmed = db.warmed := by
  unfold MarkFlush
  split <;> rfl

theorem MarkFlush_meta (db : WarmDB) (now : Int) (reason : String) :
    (MarkFlush db now reason).meta_last_flush = some (TimeStr.valid now) := by
  unfold MarkFlush
  split <;> rfl

theorem GetLastFlush_MarkFlush (db : WarmDB) (now : Int) (reason : String) :
    GetLastFlush (MarkFlush db now reason) = some now := by
  simp [GetLastFlush, MarkFlush_meta, parseRFC3339]

/-- C1. The run of the spec's basic-warm scenario: two URLs, both recorded by
MarkWarmed with status 200 and an empty error message. The claim expects
ok_total = 2 and err_total = 0, but the ok_total query requires last_error IS
NULL while MarkWarmed always stores a non-NULL (possibly empty) string, so
the code yields ok_total = 0 and err_total = 2: a record with an empty error
string never counts as a success. -/
theorem c1_success_counting_code_bug :
    (dbStats (MarkWarmed (MarkWarmed emptyWarmDB "https://x/a" 200 "" 100)
        "https://x/b" 200 "" 101)).warmedTotal = 2 ∧
    (dbStats (MarkWarmed (MarkWarmed emptyWarmDB "https://x/a" 200 "" 100)
        "https://x/b" 200 "" 101)).okTotal = 0 ∧
    (dbStats (MarkWarmed (MarkWarmed emptyWarmDB "https://x/a" 200 "" 100)
        "https://x/b" 200 "" 101)).errTotal = 2 := by
  decide

/-- C2. ShouldWarm case characterization: true when no record exists; true
when the stored timestamp fails to parse; true when a flush exists and the
last warm is strictly before it; otherwise true exactly when now minus the
last warm is at least the rewarm interval. -/
theorem c2_should_warm_cases (db : WarmDB) (url : String)
    (rewarmAfter now : Int) :
    (lookupKey db.warmed url = none →
      ShouldWarm db url rewarmAfter now = true)
    ∧ (∀ r, lookupKey db.warmed url = some r →
        parseRFC3339 r.last_warmed_utc = none →
        ShouldWarm db url rewarmAfter now = true)
    ∧ (∀ r lw f, lookupKey db.warmed url = some r →
        parseRFC3339 r.last_warmed_utc = some lw →
        GetLastFlush db = some f → lw < f →
        ShouldWarm db url rewarmAfter now = true)
    ∧ (∀ r lw, lookupKey db.warmed url = some r →
        parseRFC3339 r.last_warmed_utc = some lw →
        (∀ f, GetLastFlush db = some f → f ≤ lw) →
        (ShouldWarm db url rewarmAfter now = true ↔
          rewarmAfter ≤ now - lw)) := by
  refine ⟨?_, ?_, ?_, ?_⟩
  · intro h
    simp [ShouldWarm, h]
  · intro r h1 h2
    simp [ShouldWarm, h1, h2]
  · intro r lw f h1 h2 h3 h4
    simp [ShouldWarm, h1, h2, h3, h4]
  · intro r lw h1 h2 h3
    cases hf : GetLastFlush db with
    | none =>
      simp [ShouldWarm, h1, h2, hf, ge_iff_le]
    | some f =>
      have hle : f ≤ lw := h3 f hf
      have hnlt : ¬ lw < f := not_lt.mpr hle
      simp [ShouldWarm, h1, h2, hf, hnlt, ge_iff_le]

/-- C2 witness: a URL with no record must be warmed. -/
theorem c2_should_warm_cases_witness :
    ShouldWarm emptyWarmDB "https://x/a" 5 10 = true :=
  (c2_should_warm_cases emptyWarmDB "https://x/a" 5 10).1 rfl

/-- C3. After MarkFlush at time T, every URL whose stored last warm parses to
an instant strictly before T must be warmed again, whatever the rewarm
interval and the current time. -/
theorem c3_flush_forces_rewarm (db : WarmDB) (url reason : String)
    (rewarmAfter now T : Int) (r : WarmRecord) (lw : Int)
    (h1 : lookupKey db.warmed url = some r)
    (h2 : parseRFC3339 r.last_warmed_utc = some lw)
    (h3 : lw < T) :
    ShouldWarm (MarkFlush db T reason) url rewarmAfter now = true := by
  have hw : lookupKey (MarkFlush db T reason).warmed url = some r := by
    rw [MarkFlush_warmed]; exact h1
  have hf := GetLastFlush_MarkFlush db T reason
  simp [ShouldWarm, hw, h2, hf, h3]

/-- C3 witness: a URL warmed at 50 and flushed at 60 is rewarmed even with a
huge rewarm interval. -/
theorem c3_flush_forces_rewarm_witness :
    ShouldWarm (MarkFlush (MarkWarmed emptyWarmDB "https://x/a" 200 "" 50)
      60 "test") "https://x/a" 99999 70 = true :=
  c3_flush_forces_rewarm (MarkWarmed emptyWarmDB "https://x/a" 200 "" 50)
    "https://x/a" "test" 99999 70 60 ⟨TimeStr.valid 50, 200, some "", 1⟩ 50
    (by decide) rfl (by decide)

/-- A run of MarkWarmed calls: each operation is (url, status, errorMsg, now). -/
def applyMarks (db : WarmDB) (ops : List (String × Int × String × Int)) : WarmDB :=
  ops.foldl (fun d op => MarkWarmed d op.1 op.2.1 op.2.2.1 op.2.2.2) db

/-- Every warmed_url row of the database has warmed_count at least one. -/
def CountsPositive (db : WarmDB) : Prop :=
  ∀ p ∈ db.warmed, 1 ≤ p.2.warmed_count

theorem countsPositive_MarkWarmed {db : WarmDB} (h : CountsPositive db)
    (url : String) (status : Int) (msg : String) (now : Int) :
    CountsPositive (MarkWarmed db url status msg now) := by
  intro p hp
  unfold MarkWarmed at hp
  cases hl : lookupKey db.warmed url with
  | none =>
    rw [hl] at hp
    simp at hp
    rcases hp with hp | hp
    · exact h p hp
    · simp [hp]
  | some r =>
    rw [hl] at hp
    simp at hp
    rcases mem_updateKey hp with hm | hm
    · exact h p hm
    · have hr : 1 ≤ r.warmed_count := h (url, r) (lookupKey_mem hl)
      simp [hm]
      omega

theorem countsPositive_applyMarks {db : WarmDB} (h : CountsPositive db)
    (ops : List (String × Int × String × Int)) :
    CountsPositive (applyMarks db ops) := by
  induction ops generalizing db with
  | nil => exact h
  | cons op rest ih =>
    exact ih (countsPositive_MarkWarmed h op.1 op.2.1 op.2.2.1 op.2.2.2)

/-- C4. MarkWarmed is an upsert: inserting a fresh row with warmed_count 1
when none exists, incrementing warmed_count by exactly one otherwise; and
after any sequence of MarkWarmed calls starting from the empty database,
every existing row has warmed_count at least one. -/
theorem c4_mark_warmed_upsert_count :
    (∀ db url status msg now, lookupKey db.warmed url = none →
      lookupKey (MarkWarmed db url status msg now).warmed url =
        some ⟨TimeStr.valid now, status, some msg, 1⟩)
    ∧ (∀ db url status msg now r, lookupKey db.warmed url = some r →
      lookupKey (MarkWarmed db url status msg now).warmed url =
        some ⟨TimeStr.valid now, status, some msg, r.warmed_count + 1⟩)
    ∧ (∀ ops url r,
      lookupKey (applyMarks emptyWarmDB ops).warmed url = some r →
      1 ≤ r.warmed_count) := by
  refine ⟨?_, ?_, ?_⟩
  · intro db url status msg now h
    unfold MarkWarmed
    rw [h]
    exact lookupKey_append_self _ h
  · intro db url status msg now r h
    unfold MarkWarmed
    rw [h]
    exact lookupKey_updateKey_self h
  · intro ops url r h
    have hpos : CountsPositive (applyMarks emptyWarmDB ops) :=
      countsPositive_applyMarks (by intro p hp; simp [emptyWarmDB] at hp) ops
    exact hpos (url, r) (lookupKey_mem h)

/-- C4 witness: inserting then updating one URL gives warmed_count 2, and the
invariant instance holds on a concrete two-call run. -/
theorem c4_mark_warmed_upsert_count_witness :
    lookupKey (MarkWarmed emptyWarmDB "https://x/a" 200 "" 5).warmed
        "https://x/a" = some ⟨TimeStr.valid 5, 200, some "", 1⟩ ∧
    lookupKey (MarkWarmed (MarkWarmed emptyWarmDB "https://x/a" 200 "" 5)
        "https://x/a" 503 "HTTP 503" 6).warmed "https://x/a" =
      some ⟨TimeStr.valid 6, 503, some "HTTP 503", 2⟩ ∧
    1 ≤ (⟨TimeStr.valid 6, 503, some "HTTP 503", 2⟩ : WarmRecord).warmed_count := by
  refine ⟨?_, ?_, ?_⟩
  · exact c4_mark_warmed_upsert_count.1 emptyWarmDB "https://x/a" 200 "" 5 rfl
  · exact c4_mark_warmed_upsert_count.2.1
      (MarkWarmed emptyWarmDB "https://x/a" 200 "" 5) "https://x/a" 503
      "HTTP 503" 6 ⟨TimeStr.valid 5, 200, some "", 1⟩ (by decide)
  · exact c4_mark_warmed_upsert_count.2.2
      [("https://x/a", 200, "", 5), ("https://x/a", 503, "HTTP 503", 6)]
      "https://x/a" ⟨TimeStr.valid 6, 503, some "HTTP 503", 2⟩ (by decide)

/-- C10. A stored last_flush_utc that fails to parse makes GetLastFlush
return none with no error, and ShouldWarm then behaves exactly as if no
flush had ever been recorded. -/
theorem c10_invalid_flush_ignored (db : WarmDB) (s : String)
    (h : db.meta_last_flush = some (TimeStr.invalid s)) :
    GetLastFlush db = none ∧
    ∀ url rewarmAfter now,
      ShouldWarm db url rewarmAfter now =
        ShouldWarm { db with meta_last_flush := none } url rewarmAfter now := by
  have hg : GetLastFlush db = none := by
    simp [GetLastFlush, h, parseRFC3339]
  refine ⟨hg, ?_⟩
  intro url rewarmAfter now
  have hg2 : GetLastFlush { db with meta_last_flush := none } = none := by
    simp [GetLastFlush]
  unfold ShouldWarm
  rw [hg, hg2]

/-- C10 witness: a database whose stored flush value is garbage. -/
theorem c10_invalid_flush_ignored_witness :
    GetLastFlush ⟨[], some (TimeStr.invalid "not-a-date"), none⟩ = none ∧
    ShouldWarm ⟨[], some (TimeStr.invalid "not-a-date"), none⟩
        "https://x/a" 5 10 =
      ShouldWarm ⟨[], none, none⟩ "https://x/a" 5 10 :=
  ⟨(c10_invalid_flush_ignored ⟨[], some (TimeStr.invalid "not-a-date"), none⟩
      "not-a-date" rfl).1,
   (c10_invalid_flush_ignored ⟨[], some (TimeStr.invalid "not-a-date"), none⟩
      "not-a-date" rfl).2 "https://x/a" 5 10⟩

/-- C5. on429 on a limiter whose minConcurrency is the constant 1 (as set by
newRateLimiter): the concurrency is halved flooring at 1, consecutiveOK is
reset, and the cooldown deadline is now plus the larger of the Retry-After
hint and cooldownSeconds; with a hint of 3 seconds the cooldown is exactly
max(3, cooldownSeconds). -/
theorem c5_on429_spec (rl : RateLimiter) (retryAfter now : Int)
    (h : rl.minConcurrency = 1) :
    (on429 rl retryAfter now).currentConcurrency =
      max 1 (rl.currentConcurrency / 2)
    ∧ (on429 rl retryAfter now).consecutiveOK = 0
    ∧ (on429 rl retryAfter now).cooldownUntil =
      now + max retryAfter rl.cooldownSeconds
    ∧ (on429 rl 3 now).cooldownUntil = now + max 3 rl.cooldownSeconds := by
  unfold on429
  refine ⟨?_, rfl, ?_, ?_⟩
  · simp only [h]
    rcases Nat.lt_or_ge (rl.currentConcurrency / 2) 1 with hlt | hge
    · simp [hlt]
      omega
    · simp [Nat.not_lt.mpr hge]
      omega
  · simp only []
    rcases Int.lt_or_le retryAfter rl.cooldownSeconds with hlt | hle
    · simp [hlt]
      omega
    · simp [Int.not_lt.mpr hle]
      omega
  · simp only []
    rcases Int.lt_or_le (3 : Int) rl.cooldownSeconds with hlt | hle
    · simp [hlt]
      omega
    · simp [Int.not_lt.mpr hle]
      omega

/-- C5 witness: the limiter fresh from newRateLimiter 8 120 50 hit by a 429
with Retry-After hint 3 at time 0. -/
theorem c5_on429_spec_witness :
    (on429 (newRateLimiter 8 120 50) 3 0).currentConcurrency = max 1 (8 / 2)
    ∧ (on429 (newRateLimiter 8 120 50) 3 0).consecutiveOK = 0
    ∧ (on429 (newRateLimiter 8 120 50) 3 0).cooldownUntil =
      0 + max 3 120 := by
  have h := c5_on429_spec (newRateLimiter 8 120 50) 3 0 rfl
  exact ⟨h.1, h.2.1, h.2.2.1⟩

/-- The limiter bounds invariant for a configured concurrency c. -/
def RLBounds (c : Nat) (rl : RateLimiter) : Prop :=
  rl.minConcurrency = 1 ∧ rl.maxConcurrency = c ∧
    1 ≤ rl.currentConcurrency ∧ rl.currentConcurrency ≤ c

theorem rlBounds_on429 {c : Nat} {rl : RateLimiter} (h : RLBounds c rl)
    (retryAfter now : Int) : RLBounds c (on429 rl retryAfter now) := by
  obtain ⟨h1, h2, h3, h4⟩ := h
  unfold on429
  refine ⟨h1, h2, ?_, ?_⟩ <;> simp [h1] <;> split <;> omega

theorem rlBounds_onSuccess {c : Nat} {rl : RateLimiter} (h : RLBounds c rl) :
    RLBounds c (onSuccess rl) := by
  obtain ⟨h1, h2, h3, h4⟩ := h
  unfold onSuccess
  refine ⟨?_, ?_, ?_, ?_⟩ <;> simp <;> split <;> simp [h1, h2] <;> omega

theorem rlBounds_rlRun {c : Nat} {rl : RateLimiter} (h : RLBounds c rl)
    (events : List RLEvent) : RLBounds c (rlRun rl events) := by
  induction events generalizing rl with
  | nil => exact h
  | cons e rest ih =>
    cases e with
    | limit ra now => exact ih (rlBounds_on429 h ra now)
    | ok => exact ih (rlBounds_onSuccess h)

theorem on429_min (rl : RateLimiter) (retryAfter now : Int) :
    (on429 rl retryAfter now).minConcurrency = rl.minConcurrency := rfl

theorem on429_current (rl : RateLimiter) (retryAfter now : Int)
    (h : rl.minConcurrency = 1) :
    (on429 rl retryAfter now).currentConcurrency =
      max 1 (rl.currentConcurrency / 2) := by
  unfold on429
  simp [h]
  split <;> omega

/-- After n consecutive 429s the concurrency is the n-fold halving of the
start value, floored at 1. -/
theorem iter429_current (retryAfter now : Int) (n : Nat) (rl : RateLimiter)
    (hmin : rl.minConcurrency = 1) (hcur : 1 ≤ rl.currentConcurrency) :
    (iter429 retryAfter now n rl).currentConcurrency =
      max 1 (rl.currentConcurrency / 2 ^ n) := by
  induction n generalizing rl with
  | zero =>
    simp [iter429]
    omega
  | succ n ih =>
    have hmin' : (on429 rl retryAfter now).minConcurrency = 1 := by
      rw [on429_min]; exact hmin
    have hcur' : 1 ≤ (on429 rl retryAfter now).currentConcurrency := by
      rw [on429_current rl retryAfter now hmin]
      omega
    have step := ih (on429 rl retryAfter now) hmin' hcur'
    rw [iter429, step, on429_current rl retryAfter now hmin]
    rcases Nat.lt_or_ge (rl.currentConcurrency / 2) 1 with hlt | hge
    · have hc1 : rl.currentConcurrency = 1 := by omega
      rw [hc1]
      have e1 : (1 : Nat) / 2 ^ (n + 1) = 0 :=
        Nat.div_eq_of_lt (Nat.one_lt_two_pow_iff.mpr (Nat.succ_ne_zero n))
      have e2 : (1 : Nat) / 2 ^ n ≤ 1 := Nat.div_le_self 1 (2 ^ n)
      have e3 : (1 : Nat) / 2 = 0 := by norm_num
      rw [e1, e3]
      have e4 : max 1 0 = 1 := by omega
      rw [e4]
      omega
    · have hmx : max 1 (rl.currentConcurrency / 2) =
        rl.currentConcurrency / 2 := by omega
      rw [hmx, Nat.div_div_eq_div_mul]
      have h2 : 2 * 2 ^ n = 2 ^ (n + 1) := by
        rw [pow_succ]
        ring
      rw [h2]

/-- C6. Starting from newRateLimiter with configured concurrency c >= 1,
currentConcurrency stays in [1, c] after every sequence of on429 and
onSuccess calls, and n sustained 429s with 2^n >= c drive it to exactly 1. -/
theorem c6_concurrency_bounds (c : Nat) (cooldownSeconds : Int)
    (recoverAfter : Nat) (h : 1 ≤ c) :
    (∀ events : List RLEvent,
      1 ≤ (rlRun (newRateLimiter c cooldownSeconds recoverAfter)
            events).currentConcurrency ∧
      (rlRun (newRateLimiter c cooldownSeconds recoverAfter)
            events).currentConcurrency ≤ c)
    ∧ (∀ retryAfter now : Int, ∀ n : Nat, c ≤ 2 ^ n →
      (iter429 retryAfter now n
        (newRateLimiter c cooldownSeconds recoverAfter)).currentConcurrency
        = 1) := by
  have hinit : RLBounds c (newRateLimiter c cooldownSeconds recoverAfter) :=
    ⟨rfl, rfl, h, le_refl c⟩
  constructor
  · intro events
    have hb := rlBounds_rlRun hinit events
    exact ⟨hb.2.2.1, hb.2.2.2⟩
  · intro retryAfter now n hn
    rw [iter429_current retryAfter now n _ rfl h]
    have hcc : (newRateLimiter c cooldownSeconds
        recoverAfter).currentConcurrency = c := rfl
    rw [hcc]
    have hdle : c / 2 ^ n ≤ 1 := by
      calc c / 2 ^ n ≤ 2 ^ n / 2 ^ n := Nat.div_le_div_right hn
      _ = 1 := Nat.div_self (Nat.pos_pow_of_pos n (by omega))
    omega

/-- C6 witness: starting concurrency 8, a 429 then 200 successes never leaves
[1, 8], and three sustained 429s reach exactly 1. -/
theorem c6_concurrency_bounds_witness :
    (1 ≤ (rlRun (newRateLimiter 8 120 50)
          [RLEvent.limit 3 0, RLEvent.ok, RLEvent.ok]).currentConcurrency ∧
      (rlRun (newRateLimiter 8 120 50)
          [RLEvent.limit 3 0, RLEvent.ok, RLEvent.ok]).currentConcurrency ≤ 8)
    ∧ (iter429 3 0 3 (newRateLimiter 8 120 50)).currentConcurrency = 1 :=
  ⟨(c6_concurrency_bounds 8 120 50 (by decide)).1
      [RLEvent.limit 3 0, RLEvent.ok, RLEvent.ok],
   (c6_concurrency_bounds 8 120 50 (by decide)).2 3 0 3 (by decide)⟩

theorem goAtoi_empty : goAtoi "" = none := rfl

/-- C7. parseRetryAfter: an absent (empty after trimming) header gives the
default; a parseable non-negative decimal integer gives that many seconds; a
well-formed HTTP-date in the future gives the remaining duration; and an
unparseable value, a negative integer, or a date not in the future all fall
back to the default. The abstract RFC 1123 parser is only assumed where the
header is not a decimal integer (a real HTTP-date parser accepts no decimal
numeral and not the empty string). -/
theorem c7_retry_after_parsing (rfc1123 : String → Option Int)
    (now defaultSec : Int) (hdr : String) :
    (trimSpace hdr = "" → parseRetryAfter rfc1123 now hdr defaultSec = defaultSec)
    ∧ (∀ sec, goAtoi (trimSpace hdr) = some sec → 0 ≤ sec →
        parseRetryAfter rfc1123 now hdr defaultSec = sec)
    ∧ (∀ t, goAtoi (trimSpace hdr) = none → rfc1123 (trimSpace hdr) = some t → now < t →
        trimSpace hdr ≠ "" →
        parseRetryAfter rfc1123 now hdr defaultSec = t - now)
    ∧ (goAtoi (trimSpace hdr) = none → rfc1123 (trimSpace hdr) = none →
        parseRetryAfter rfc1123 now hdr defaultSec = defaultSec)
    ∧ (∀ sec, goAtoi (trimSpace hdr) = some sec → sec < 0 →
        rfc1123 (trimSpace hdr) = none →
        parseRetryAfter rfc1123 now hdr defaultSec = defaultSec)
    ∧ (∀ t, goAtoi (trimSpace hdr) = none → rfc1123 (trimSpace hdr) = some t → t ≤ now →
        parseRetryAfter rfc1123 now hdr defaultSec = defaultSec) := by
  refine ⟨?_, ?_, ?_, ?_, ?_, ?_⟩
  · intro h
    simp [parseRetryAfter, h]
  · intro sec hA hpos
    have hne : trimSpace hdr ≠ "" := by
      intro he
      rw [he, goAtoi_empty] at hA
      exact Option.noConfusion hA
    simp [parseRetryAfter, hne, hA, hpos]
  · intro t hA hR hfut hne
    simp [parseRetryAfter, hne, hA, retryAfterDate, hR]
    intro h2
    omega
  · intro hA hR
    by_cases he : trimSpace hdr = ""
    · simp [parseRetryAfter, he]
    · simp [parseRetryAfter, he, hA, retryAfterDate, hR]
  · intro sec hA hneg hR
    have hne : trimSpace hdr ≠ "" := by
      intro he
      rw [he, goAtoi_empty] at hA
      exact Option.noConfusion hA
    have hnn : ¬ (0 ≤ sec) := by omega
    simp [parseRetryAfter, hne, hA, hnn, retryAfterDate, hR]
  · intro t hA hR hpast
    by_cases he : trimSpace hdr = ""
    · simp [parseRetryAfter, he]
    · simp [parseRetryAfter, he, hA, retryAfterDate, hR]
      intro h2
      omega

/-- C7 witness: header "3" yields 3 seconds; the absent header yields the
configured default. -/
theorem c7_retry_after_parsing_witness :
    parseRetryAfter (fun _ => none) 0 "3" 120 = 3 ∧
    parseRetryAfter (fun _ => none) 0 "" 120 = 120 :=
  ⟨(c7_retry_after_parsing (fun _ => none) 0 120 "3").2.1 3 (by decide)
      (by decide),
   (c7_retry_after_parsing (fun _ => none) 0 120 "").1 (by decide)⟩

/-- Where the values emitted by the appendLocs loop come from: the initial
accumulator, or the trim of a loc value that was nonempty before trimming. -/
theorem mem_appendLocs {v : String} :
    ∀ {acc locs : List String}, v ∈ appendLocs acc locs →
      v ∈ acc ∨ ∃ s, s ∈ locs ∧ s ≠ "" ∧ v = trimSpace s := by
  intro acc locs
  induction locs generalizing acc with
  | nil =>
    intro h
    simp [appendLocs] at h
    exact Or.inl h
  | cons s rest ih =>
    intro h
    have h' : v ∈ appendLocs
        (if s ≠ "" then acc ++ [trimSpace s] else acc) rest := h
    rcases ih h' with hacc | hex
    · by_cases hs : s = ""
      · rw [if_neg (by simp [hs])] at hacc
        exact Or.inl hacc
      · rw [if_pos hs] at hacc
        rcases List.mem_append.mp hacc with h1 | h1
        · exact Or.inl h1
        · right
          exact ⟨s, List.mem_cons_self s rest, hs, by simpa using h1⟩
    · obtain ⟨s', h1, h2, h3⟩ := hex
      right
      exact ⟨s', List.mem_cons_of_mem s h1, h2, h3⟩

/-- C8 counterexample: a urlset whose single url loc is whitespace-only. The
code drops a loc only when it is empty before trimming, so the trimmed empty
string survives into the pages list, refuting "returns only non-empty
values". -/
theorem c8_empty_loc_counterexample :
    "" ∈ (parseSitemapXML none (some ⟨["   "], []⟩)).pages := by
  decide

/-- C8 amended: the parser never returns an error; every returned page value
is the whitespace-trim of a url loc that was nonempty before trimming (so
empty locs are dropped, but whitespace-only locs survive as empty strings);
every returned child value likewise comes from a nonempty sitemap loc of the
index or the urlset; and when both decodes fail (malformed XML) the result is
empty with no error. -/
theorem c8_sitemap_parse_amended (idx : Option GoSitemapIndexRoot)
    (urlset : Option GoUrlset) :
    (parseSitemapXML idx urlset).err = none
    ∧ (∀ v ∈ (parseSitemapXML idx urlset).pages,
        ∃ s u, urlset = some u ∧ s ∈ u.urls ∧ s ≠ "" ∧ v = trimSpace s)
    ∧ (∀ v ∈ (parseSitemapXML idx urlset).children,
        ∃ s, s ≠ "" ∧ v = trimSpace s ∧
          ((∃ i, idx = some i ∧ s ∈ i.sitemaps) ∨
            (∃ u, urlset = some u ∧ s ∈ u.sitemaps)))
    ∧ (idx = none → urlset = none →
        parseSitemapXML idx urlset = ⟨[], [], none⟩) := by
  have hidx : ∀ v ∈ (match idx with
      | some i => if 0 < i.sitemaps.length then appendLocs [] i.sitemaps
        else []
      | none => ([] : List String)),
      ∃ s, s ≠ "" ∧ v = trimSpace s ∧ ∃ i, idx = some i ∧ s ∈ i.sitemaps := by
    intro v hv
    cases idx with
    | none => simp at hv
    | some i =>
      simp at hv
      rcases mem_appendLocs hv.2 with habs | ⟨s, h1, h2, h3⟩
      · simp at habs
      · exact ⟨s, h2, h3, i, rfl, h1⟩
  refine ⟨?_, ?_, ?_, ?_⟩
  · cases urlset <;> rfl
  · intro v hv
    cases urlset with
    | none => simp [parseSitemapXML] at hv
    | some u =>
      simp only [parseSitemapXML] at hv
      rcases mem_appendLocs hv with habs | ⟨s, h1, h2, h3⟩
      · simp at habs
      · exact ⟨s, u, rfl, h1, h2, h3⟩
  · intro v hv
    cases urlset with
    | none =>
      simp only [parseSitemapXML] at hv
      obtain ⟨s, h2, h3, i, hi, hs⟩ := hidx v hv
      exact ⟨s, h2, h3, Or.inl ⟨i, hi, hs⟩⟩
    | some u =>
      simp only [parseSitemapXML] at hv
      rcases mem_appendLocs hv with hin | ⟨s, h1, h2, h3⟩
      · obtain ⟨s, h2, h3, i, hi, hs⟩ := hidx v hin
        exact ⟨s, h2, h3, Or.inl ⟨i, hi, hs⟩⟩
      · exact ⟨s, h2, h3, Or.inr ⟨u, rfl, h1⟩⟩
  · intro h1 h2
    subst h1
    subst h2
    rfl

/-- C8 witness: both decodes failing (malformed XML) yields the empty result
and no error. -/
theorem c8_sitemap_parse_amended_witness :
    parseSitemapXML none none =
      ⟨([] : List String), ([] : List String), (none : Option String)⟩ :=
  (c8_sitemap_parse_amended none none).2.2.2 rfl rfl

theorem markVisited_subset (seed : String) (st : CollectState) :
    st.visited ⊆ (markVisited seed st).visited := by
  intro a ha
  exact List.mem_cons_of_mem _ ha

theorem markVisited_good {seed : String} {st : CollectState}
    (hv : seed ∉ st.visited) (hg : GoodState st) :
    GoodState (markVisited seed st) := by
  obtain ⟨hnd, hin⟩ := hg
  refine ⟨?_, ?_⟩
  · refine List.Nodup.append hnd (List.nodup_singleton seed) ?_
    intro a ha hb
    simp at hb
    subst hb
    exact hv (hin a ha)
  · intro u hu
    rcases List.mem_append.mp hu with h1 | h1
    · exact List.mem_cons_of_mem _ (hin u h1)
    · simp at h1
      subst h1
      exact List.mem_cons_self _ _

theorem length_filter_le_of_imp {l : List String} {p q : String → Bool}
    (h : ∀ a, p a = true → q a = true) :
    (l.filter p).length ≤ (l.filter q).length :=
  List.Sublist.length_le (List.monotone_filter_right l h)

theorem length_filter_lt_of_witness {l : List String} {p q : String → Bool}
    {a : String} (hmem : a ∈ l) (himp : ∀ x, p x = true → q x = true)
    (hpa : p a = false) (hqa : q a = true) :
    (l.filter p).length < (l.filter q).length := by
  induction l with
  | nil => simp at hmem
  | cons b l' ih =>
    rcases List.mem_cons.mp hmem with hb | hb
    · subst hb
      rw [List.filter_cons_of_neg (by simp [hpa]),
        List.filter_cons_of_pos (by simp [hqa])]
      exact Nat.lt_succ_of_le (length_filter_le_of_imp himp)
    · by_cases hpb : p b = true
      · rw [List.filter_cons_of_pos (by simp [hpb]),
          List.filter_cons_of_pos (by simp [himp b hpb])]
        exact Nat.succ_lt_succ (ih hb)
      · rw [List.filter_cons_of_neg (by simp [hpb])]
        by_cases hqb : q b = true
        · rw [List.filter_cons_of_pos (by simp [hqb])]
          exact Nat.lt_succ_of_lt (ih hb)
        · rw [List.filter_cons_of_neg (by simp [hqb])]
          exact ih hb

theorem unvisitedCount_mono {world : List (String × FetchResult)}
    {st st' : CollectState} (h : st.visited ⊆ st'.visited) :
    unvisitedCount world st' ≤ unvisitedCount world st := by
  unfold unvisitedCount
  apply List.Sublist.length_le
  apply List.monotone_filter_right
  intro a ha
  simp only [decide_eq_true_eq] at ha ⊢
  exact fun hmem => ha (h hmem)

theorem unvisitedCount_markVisited_lt {world : List (String × FetchResult)}
    {st : CollectState} {seed : String}
    (hmem : seed ∈ worldKeys world) (hnv : seed ∉ st.visited) :
    unvisitedCount world (markVisited seed st) < unvisitedCount world st := by
  unfold unvisitedCount markVisited
  apply length_filter_lt_of_witness hmem
  · intro x hx
    simp only [decide_eq_true_eq] at hx ⊢
    intro hmemx
    exact hx (List.mem_cons_of_mem _ hmemx)
  · simp
  · simp [hnv]

/-- The per-seed step contract: visited only grows, and a good state stays
good. -/
def StepOK
    (step : String → CollectState → Option (List String × CollectState)) :
    Prop :=
  ∀ seed st res st', step seed st = some (res, st') →
    st.visited ⊆ st'.visited ∧ (GoodState st → GoodState st')

theorem collectManyF_ok {step : String → CollectState →
    Option (List String × CollectState)} (hstep : StepOK step) :
    ∀ (cs : List String) (st : CollectState) res st',
      collectManyF step cs st = some (res, st') →
      st.visited ⊆ st'.visited ∧ (GoodState st → GoodState st') := by
  intro cs
  induction cs with
  | nil =>
    intro st res st' h
    simp [collectManyF] at h
    obtain ⟨h1, h2⟩ := h
    subst h2
    exact ⟨List.Subset.refl _, id⟩
  | cons c cs' ih =>
    intro st res st' h
    unfold collectManyF at h
    cases h1 : step c st with
    | none =>
      rw [h1] at h
      simp at h
    | some p =>
      obtain ⟨us, st1⟩ := p
      rw [h1] at h
      dsimp only at h
      cases h2 : collectManyF step cs' st1 with
      | none =>
        rw [h2] at h
        simp at h
      | some q =>
        obtain ⟨rest, st2⟩ := q
        rw [h2] at h
        simp at h
        obtain ⟨hres, hst⟩ := h
        subst hst
        obtain ⟨s1, g1⟩ := hstep c st us st1 h1
        obtain ⟨s2, g2⟩ := ih st1 rest st2 h2
        exact ⟨fun a ha => s2 (s1 ha), fun g => g2 (g1 g)⟩

theorem collectOne_stepOK (world : List (String × FetchResult)) :
    ∀ fuel : Nat, StepOK (fun c stc => collectOne world fuel c stc) := by
  intro fuel
  induction fuel with
  | zero =>
    intro seed st res st' h
    simp [collectOne] at h
  | succ fuel ih =>
    intro seed st res st' h
    simp only [] at h
    unfold collectOne at h
    by_cases hv : seed ∈ st.visited
    · rw [if_pos hv] at h
      simp at h
      obtain ⟨h1, h2⟩ := h
      subst h2
      exact ⟨List.Subset.refl _, id⟩
    · rw [if_neg hv] at h
      have hsub1 := markVisited_subset seed st
      have hgood1 : GoodState st → GoodState (markVisited seed st) :=
        markVisited_good hv
      cases hw : lookupKey world seed with
      | none =>
        rw [hw] at h
        simp at h
        obtain ⟨h1, h2⟩ := h
        subst h2
        exact ⟨hsub1, hgood1⟩
      | some fr =>
        cases fr with
        | failure =>
          rw [hw] at h
          simp at h
          obtain ⟨h1, h2⟩ := h
          subst h2
          exact ⟨hsub1, hgood1⟩
        | success children urls =>
          rw [hw] at h
          dsimp only at h
          cases hm : collectManyF (fun c stc => collectOne world fuel c stc)
              children (markVisited seed st) with
          | none =>
            rw [hm] at h
            simp at h
          | some q =>
            obtain ⟨rest, st2⟩ := q
            rw [hm] at h
            simp at h
            obtain ⟨h1, h2⟩ := h
            subst h2
            obtain ⟨s2, g2⟩ := collectManyF_ok ih children
              (markVisited seed st) rest st2 hm
            exact ⟨fun a ha => s2 (hsub1 ha), fun g => g2 (hgood1 g)⟩

theorem collectManyF_term {world : List (String × FetchResult)}
    {step : String → CollectState → Option (List String × CollectState)}
    (hstep : StepOK step) {f : Nat}
    (hterm : ∀ seed st, unvisitedCount world st < f → step seed st ≠ none) :
    ∀ (cs : List String) (st : CollectState),
      unvisitedCount world st < f → collectManyF step cs st ≠ none := by
  intro cs
  induction cs with
  | nil =>
    intro st hc
    simp [collectManyF]
  | cons c cs' ih =>
    intro st hc
    unfold collectManyF
    cases h1 : step c st with
    | none => exact absurd h1 (hterm c st hc)
    | some p =>
      obtain ⟨us, st1⟩ := p
      dsimp only
      have hsub := (hstep c st us st1 h1).1
      have hc1 : unvisitedCount world st1 < f :=
        lt_of_le_of_lt (unvisitedCount_mono hsub) hc
      cases h2 : collectManyF step cs' st1 with
      | none => exact absurd h2 (ih st1 hc1)
      | some q =>
        obtain ⟨rest, st2⟩ := q
        simp

theorem collectOne_term (world : List (String × FetchResult)) :
    ∀ (fuel : Nat) (seed : String) (st : CollectState),
      unvisitedCount world st < fuel →
      collectOne world fuel seed st ≠ none := by
  intro fuel
  induction fuel with
  | zero =>
    intro seed st hc
    exact absurd hc (Nat.not_lt_zero _)
  | succ fuel ih =>
    intro seed st hc
    unfold collectOne
    by_cases hv : seed ∈ st.visited
    · rw [if_pos hv]
      simp
    · rw [if_neg hv]
      cases hw : lookupKey world seed with
      | none => simp
      | some fr =>
        cases fr with
        | failure => simp
        | success children urls =>
          dsimp only
          have hmem : seed ∈ worldKeys world :=
            List.mem_map_of_mem (fun p => p.1) (lookupKey_mem hw)
          have hdec : unvisitedCount world (markVisited seed st) <
              unvisitedCount world st :=
            unvisitedCount_markVisited_lt hmem hv
          have hlt : unvisitedCount world (markVisited seed st) < fuel := by
            omega
          cases hm : collectManyF (fun c stc => collectOne world fuel c stc)
              children (markVisited seed st) with
          | none =>
            exact absurd hm (collectManyF_term (collectOne_stepOK world fuel)
              (fun s stt hcc => ih s stt hcc) children
              (markVisited seed st) hlt)
          | some q =>
            obtain ⟨rest, st2⟩ := q
            simp

/-- C9. The collector never fetches a sitemap twice within a run: calling it
on an already-visited seed returns the empty list with the state (hence the
fetch log) unchanged; from any well-formed state, the final state is again
well-formed — the fetch log stays duplicate-free and every fetched sitemap
is in the visited set, because each seed enters the visited set in the same
step that logs its fetch; and any fuel exceeding the number of unvisited
fetchable sitemaps suffices, so the recursion terminates even through cyclic
sitemap references. -/
theorem c9_collector_no_refetch (world : List (String × FetchResult)) :
    (∀ (fuel : Nat) (seed : String) (st : CollectState), seed ∈ st.visited →
      collectOne world (fuel + 1) seed st = some ([], st))
    ∧ (∀ (fuel : Nat) (seed : String) (st : CollectState) res st',
        GoodState st → collectOne world fuel seed st = some (res, st') →
        GoodState st' ∧ st.visited ⊆ st'.visited)
    ∧ (∀ (fuel : Nat) (seed : String) (st : CollectState),
        unvisitedCount world st < fuel →
        collectOne world fuel seed st ≠ none) := by
  refine ⟨?_, ?_, ?_⟩
  · intro fuel seed st hv
    unfold collectOne
    rw [if_pos hv]
  · intro fuel seed st res st' hg h
    obtain ⟨hsub, hgood⟩ := collectOne_stepOK world fuel seed st res st' h
    exact ⟨hgood hg, hsub⟩
  · exact collectOne_term world

/-- The concrete two-level world used by the C9 witness: an index sitemap
pointing at a child urlset. -/
def c9World : List (String × FetchResult) :=
  [("https://x/sitemap.xml", FetchResult.success ["https://x/s1.xml"] []),
   ("https://x/s1.xml", FetchResult.success [] ["https://x/a"])]

/-- C9 witness: the re-entry on a visited seed is a no-op, a concrete run
from the empty state yields a duplicate-free fetch log contained in the
visited set, and fuel 3 (above the 2 fetchable sitemaps) completes. -/
theorem c9_collector_no_refetch_witness :
    (collectOne c9World 3 "https://x/sitemap.xml"
      ⟨["https://x/sitemap.xml"], ["https://x/sitemap.xml"]⟩ =
      some ([], ⟨["https://x/sitemap.xml"], ["https://x/sitemap.xml"]⟩))
    ∧ (GoodState ⟨["https://x/s1.xml", "https://x/sitemap.xml"],
        ["https://x/sitemap.xml", "https://x/s1.xml"]⟩ ∧
      ([] : List String) ⊆ ["https://x/s1.xml", "https://x/sitemap.xml"])
    ∧ (collectOne c9World 3 "https://x/sitemap.xml" ⟨[], []⟩ ≠ none) := by
  refine ⟨?_, ?_, ?_⟩
  · exact (c9_collector_no_refetch c9World).1 2 "https://x/sitemap.xml"
      ⟨["https://x/sitemap.xml"], ["https://x/sitemap.xml"]⟩ (by decide)
  · exact (c9_collector_no_refetch c9World).2.1 3 "https://x/sitemap.xml"
      ⟨[], []⟩ ["https://x/a"]
      ⟨["https://x/s1.xml", "https://x/sitemap.xml"],
        ["https://x/sitemap.xml", "https://x/s1.xml"]⟩
      ⟨List.nodup_nil, by simp⟩ (by decide)
  · exact (c9_collector_no_refetch c9World).2.2 3 "https://x/sitemap.xml"
      ⟨[], []⟩ (by decide)
